import Mathlib

deriving instance DecidableEq for Except

/-!
Shallow embedding of the curriculum-learning data scheduling logic of
`run_finetune.py` (functions `uniform_mixing`, `uniform_mixing_tts`,
`run_ccl_train`, `run_cl_with_synthesised_data`).

Modelling decisions:
* A dataset (`datasets.Dataset`) is a `List Example`; an `Example` carries the
  `cefr_mean` difficulty label the scheduling code reads, plus an opaque id.
* `Dataset.train_test_split(test_size=p, seed=s)` and `Dataset.shuffle(seed=s)`
  draw a seeded permutation of the row indices.  The pseudo-random permutation
  generator of the external library is abstracted as an explicit function
  `g : Nat → Nat → List Nat` where `g seed n` is the index order used for a
  dataset of `n` rows; faithfulness hypotheses state that `g seed n` is a
  permutation of `List.range n`.  Following the library's split logic,
  `test` is the first `⌈p·n⌉` rows of the permuted dataset and `train` the
  remaining `n - ⌈p·n⌉` rows.
* Python `assert` failures (the only error mechanism these functions use) are
  modelled as `Except.error` with a constructor per assert site; an unbound
  `trainer` after a zero-iteration loop (a `NameError` at the final
  `trainer.predict`) is modelled as `.error .nameErrorTrainer`.
* The external `CTCTrainer.train` step is abstracted as a function
  `tf : μ → List Example → Nat → μ` on an opaque model-state type `μ`; the
  explicit `trainer.predict(val_dataset)` metric computations and the training
  calls are recorded in an event trace.
* Python floats (`num_train_epochs`, `swap_proportion`, cefr scores) are
  modelled as `ℚ`; the literal `0.2` is `1/5` and `0.5` is `1/2`.
-/

namespace Wav2Vec2Finetune

/-- One row of the training dataframe: an opaque identity plus the
`cefr_mean` difficulty label that the curriculum code reads. -/
structure Example where
  id : Nat
  cefr_mean : ℚ
deriving DecidableEq, Repr

/-- Apply an index order to a list: row `i` of the result is `l[idx[i]]`
(out-of-range indices contribute nothing; for a permutation of
`List.range l.length` none is out of range). -/
def applyPerm (idx : List Nat) (l : List α) : List α :=
  idx.filterMap (fun i => l[i]?)

/-- Number of test rows chosen by `train_test_split(test_size=p)` for `n`
rows: `⌈p·n⌉`, as in the library's split-size computation (`test_size`
float → `n_test = ceil(test_size * n)`, `n_train = n - n_test`). -/
def testCount (p : ℚ) (n : Nat) : Nat :=
  (⌈p * (n : ℚ)⌉).toNat

/-- Result of `Dataset.train_test_split`. -/
structure TTSplit (α : Type u) where
  train : List α
  test : List α
deriving DecidableEq, Repr

/-- Model of `Dataset.train_test_split(test_size=p, seed=seed)`: permute with the
seeded generator, take the first `⌈p·n⌉` rows as `test`, the rest as
`train`. -/
def train_test_split (g : Nat → Nat → List Nat) (l : List α) (p : ℚ) (seed : Nat) :
    TTSplit α :=
  let shuffled := applyPerm (g seed l.length) l
  { test := shuffled.take (testCount p l.length),
    train := shuffled.drop (testCount p l.length) }

/-- Model of `Dataset.shuffle(seed=seed)`: permute the rows with the seeded
generator. -/
def dsShuffle (g : Nat → Nat → List Nat) (seed : Nat) (l : List α) : List α :=
  applyPerm (g seed l.length) l

/-- Model of `len(dataset.unique("cefr_mean"))`: number of distinct difficulty
labels in a dataset. -/
def uniqueCount (l : List Example) : Nat :=
  (l.map (fun e => e.cefr_mean)).dedup.length

/-- Failure modes of the modelled code: one constructor per `assert`
site (Python `AssertionError`), plus the `NameError` hit at the final
`trainer.predict` when the phase loop never ran. -/
inductive PyError where
  | assertDatasetsLen3
  | assertDatasetsLen2
  | assertSwapRange
  | assertUniqueClasses
  | assertEpochSum
  | nameErrorTrainer
deriving DecidableEq, Repr

/-- Model of `uniform_mixing(datasets, swap_proportion, num_of_unique_classes)`:
swap parts of the three difficulty buckets and return the cumulative
phase datasets `[easy, easy∪medium, easy∪medium∪hard]`.  All split and
shuffle calls use the hard-coded seed `201123`, as in the source. -/
def uniform_mixing (g : Nat → Nat → List Nat) (datasets : List (List Example))
    (swap_proportion : ℚ) (num_of_unique_classes : Nat) :
    Except PyError (List (List Example)) :=
  match datasets with
  | [easy_set, medium_set, hard_set] =>
    if 0 < swap_proportion ∧ swap_proportion < 1 then
      if uniqueCount hard_set = num_of_unique_classes then
        .error .assertUniqueClasses
      else
        let easy_set_split := train_test_split g easy_set swap_proportion 201123
        let easy_set_replace := train_test_split g easy_set_split.test (1/2) 201123
        let medium_set_split := train_test_split g medium_set (swap_proportion / 2) 201123
        let hard_set_split := train_test_split g hard_set (swap_proportion / 2) 201123
        let easy2 := dsShuffle g 201123
          (easy_set_split.train ++ medium_set_split.test ++ hard_set_split.test)
        let medium2 := dsShuffle g 201123
          (medium_set_split.train ++ easy_set_replace.train)
        let hard2 := dsShuffle g 201123
          (hard_set_split.train ++ easy_set_replace.test)
        .ok [easy2,
             dsShuffle g 201123 (easy2 ++ medium2),
             dsShuffle g 201123 (easy2 ++ medium2 ++ hard2)]
    else .error .assertSwapRange
  | _ => .error .assertDatasetsLen3

/-- Model of `uniform_mixing_tts(datasets, swap_proportion)`: symmetric swap of a
`swap_proportion` share between the original and the synthesised
dataset, returning `[easy, easy∪difficult]`.  All split and shuffle
calls use the hard-coded seed `201123`. -/
def uniform_mixing_tts (g : Nat → Nat → List Nat) (datasets : List (List Example))
    (swap_proportion : ℚ) : Except PyError (List (List Example)) :=
  match datasets with
  | [original_data, synthesised_data] =>
    if 0 < swap_proportion ∧ swap_proportion < 1 then
      let original_data_split := train_test_split g original_data swap_proportion 201123
      let synthesised_data_split := train_test_split g synthesised_data swap_proportion 201123
      let easy_set := dsShuffle g 201123
        (original_data_split.train ++ synthesised_data_split.test)
      let diffisult_set := dsShuffle g 201123
        (original_data_split.test ++ synthesised_data_split.train)
      .ok [easy_set, dsShuffle g 201123 (easy_set ++ diffisult_set)]
    else .error .assertSwapRange
  | _ => .error .assertDatasetsLen2

/-- The `ccl_args` configuration consumed by `run_ccl_train`:
`difficulty_order` is an ordered list of label groups (lists of cefr
scores), `n_epochs` the per-phase epoch counts. -/
structure CCLArguments where
  difficulty_order : List (List ℚ)
  n_epochs : List Nat
deriving DecidableEq, Repr

/-- Observable actions of the phase runner: `evalStep m` is an explicit
`trainer.predict(val_dataset)` metric computation on model state `m`;
`trainStep subset n` is a `trainer.train()` call over `subset` with
`training_args.num_train_epochs` set to `n`. -/
inductive Event (μ : Type u) where
  | evalStep (m : μ)
  | trainStep (subset : List Example) (nEpoch : Nat)
deriving DecidableEq

/-- What a curriculum run leaves behind: the final model state, the final
value of the mutated `training_args.num_train_epochs` field, and the
trace of explicit evaluate/train actions, in order. -/
structure RunResult (μ : Type u) where
  model : μ
  numTrainEpochs : ℚ
  events : List (Event μ)
deriving DecidableEq

/-- The `for i, (n_epoch, current_train_dataset) in enumerate(zip(...))`
loop shared by `run_ccl_train` and `run_cl_with_synthesised_data`,
without the `i == 0` baseline evaluation (added by the caller): each
iteration sets `num_train_epochs := n_epoch` and trains the model carried
over from the previous iteration (`model if i == 0 else trainer.model`).
Returns the final model, the final `num_train_epochs` and the train
events. -/
def phaseLoop (tf : μ → List Example → Nat → μ) :
    List (Nat × List Example) → μ → ℚ → μ × ℚ × List (Event μ)
  | [], m, ne => (m, ne, [])
  | (n, ds) :: rest, m, _ =>
    let m' := tf m ds n
    let r := phaseLoop tf rest m' (n : ℚ)
    (r.1, r.2.1, Event.trainStep ds n :: r.2.2)

/-- Shared tail of both curriculum runners: raise the `NameError` hit at
the final `trainer.predict` when the loop body never ran (the `trainer`
variable is then unbound); otherwise run the loop, preceded by the
baseline evaluation of the initial model (the `i == 0` predict) and
followed by the final evaluation of the resulting model. -/
def runPhases (tf : μ → List Example → Nat → μ) (phases : List (Nat × List Example))
    (m : μ) (ne : ℚ) : Except PyError (RunResult μ) :=
  if phases.isEmpty then .error .nameErrorTrainer
  else
    let r := phaseLoop tf phases m ne
    .ok { model := r.1, numTrainEpochs := r.2.1,
          events := Event.evalStep m :: r.2.2 ++ [Event.evalStep r.1] }

/-- The difficulty buckets built by `run_ccl_train`:
`[train_dataset.filter(lambda e: e["cefr_mean"] in scores) for scores in
ccl_args.difficulty_order]`. -/
def cclBuckets (train_dataset : List Example) (ccl_args : CCLArguments) :
    List (List Example) :=
  ccl_args.difficulty_order.map
    (fun scores => train_dataset.filter (fun e => decide (e.cefr_mean ∈ scores)))

/-- The per-phase datasets of `run_ccl_train`: the difficulty buckets,
passed through `uniform_mixing(·, 0.2, len(train_dataset.unique("cefr_mean")))`
when `um` is set. -/
def cclDatasets (g : Nat → Nat → List Nat) (train_dataset : List Example)
    (ccl_args : CCLArguments) (um : Bool) : Except PyError (List (List Example)) :=
  if um then
    uniform_mixing g (cclBuckets train_dataset ccl_args) (1/5)
      (uniqueCount train_dataset)
  else .ok (cclBuckets train_dataset ccl_args)

/-- Model of `run_ccl_train`: assert `num_train_epochs == sum(n_epochs)` (the
Python sum of ints, cast once for the float comparison), build the
difficulty buckets (optionally uniform-mixed), then run the phase loop
over `zip(n_epochs, train_datasets)`.  `tf` abstracts the external
`trainer.train()` step, `m` the initial model state, `ne` the incoming
`training_args.num_train_epochs`. -/
def run_ccl_train (g : Nat → Nat → List Nat) (tf : μ → List Example → Nat → μ)
    (m : μ) (train_dataset : List Example) (ne : ℚ) (ccl_args : CCLArguments)
    (um : Bool) : Except PyError (RunResult μ) :=
  if ne = ((ccl_args.n_epochs.sum : ℕ) : ℚ) then
    match cclDatasets g train_dataset ccl_args um with
    | .error e => .error e
    | .ok train_datasets => runPhases tf (ccl_args.n_epochs.zip train_datasets) m ne
  else .error .assertEpochSum

/-- Model of `run_cl_with_synthesised_data`: the per-phase epoch counts are the
hard-coded `[10, 10]`; assert `num_train_epochs == sum(n_epochs)`;
the two phase datasets are either the `uniform_mixing_tts` output or
`[train, train ++ synth]`; then the same phase loop. -/
def run_cl_with_synthesised_data (g : Nat → Nat → List Nat)
    (tf : μ → List Example → Nat → μ) (m : μ)
    (train_dataset synth_train_dataset : List Example) (ne : ℚ) (um : Bool) :
    Except PyError (RunResult μ) :=
  let n_epochs : List Nat := [10, 10]
  if ne = ((n_epochs.sum : ℕ) : ℚ) then
    match (if um then uniform_mixing_tts g [train_dataset, synth_train_dataset] (1/5)
           else .ok [train_dataset, train_dataset ++ synth_train_dataset]) with
    | .error e => .error e
    | .ok train_datasets => runPhases tf (n_epochs.zip train_datasets) m ne
  else .error .assertEpochSum

/-- The training subsets of a run's trace, in phase order. -/
def trainedSubsets (evs : List (Event μ)) : List (List Example) :=
  evs.filterMap (fun e => match e with
    | Event.trainStep ds _ => some ds
    | _ => none)

/-- The per-phase epoch counts of a run's trace, in phase order. -/
def trainedEpochs (evs : List (Event μ)) : List Nat :=
  evs.filterMap (fun e => match e with
    | Event.trainStep _ n => some n
    | _ => none)

/-- Whether an event is an explicit evaluation. -/
def Event.isEvalStep : Event μ → Bool
  | Event.evalStep _ => true
  | _ => false

/-- Faithfulness assumption on the abstracted pseudo-random generator:
for every seed and size it yields a permutation of the index range, as
the library's seeded `permutation(n)` does. -/
def GoodGen (g : Nat → Nat → List Nat) : Prop :=
  ∀ seed n, (g seed n).Perm (List.range n)

/-- The identity index order: a concrete `GoodGen` instance used to
exercise the theorems on closed inputs. -/
def idPerm : Nat → Nat → List Nat := fun _ n => List.range n

/-- One training step as a fold function over phases. -/
def stepOf (tf : μ → List Example → Nat → μ) : μ → (Nat × List Example) → μ :=
  fun m p => tf m p.2 p.1

/-- A concrete training-step function on `Nat` model states, used to
exercise the theorems on closed inputs. -/
def natTrain : Nat → List Example → Nat → Nat := fun m _ _ => m + 1

/-- A second concrete generator, agreeing with `idPerm` on seed `201123`
but not elsewhere. -/
def constRange : Nat → Nat → List Nat :=
  fun seed n => if seed = 201123 then List.range n else []

/- ### Concrete fixtures for closed-input instantiations -/

/-- Two training examples with difficulty labels 1 and 2. -/
def dsTwo : List Example := [⟨0, 1⟩, ⟨1, 2⟩]

/-- A curriculum with two disjoint difficulty groups and one epoch each. -/
def cclTwoGroups : CCLArguments := ⟨[[1], [2]], [1, 1]⟩

/-- A curriculum whose second group contains the first (nested groups). -/
def cclNested : CCLArguments := ⟨[[1], [1, 2]], [1, 1]⟩

/-- A curriculum with two groups but only one epoch entry. -/
def cclOneEpoch : CCLArguments := ⟨[[1], [2]], [2]⟩

/-- Three examples: two of difficulty 1, one of difficulty 2. -/
def dsC1 : List Example := [⟨0, 1⟩, ⟨1, 1⟩, ⟨2, 2⟩]

/-- A single example whose difficulty label 3 matches no group of
`cclTwoGroups`. -/
def dsC2 : List Example := [⟨0, 3⟩]

/-- A covered example together with an uncovered one (label 3). -/
def dsUncov : List Example := [⟨0, 1⟩, ⟨1, 3⟩]

/-- Two hundred original examples with difficulty label 1. -/
def o200 : List Example := (List.range 200).map (fun i => ⟨i, 1⟩)

/-- Two hundred synthesised examples with difficulty label 2. -/
def s200 : List Example := (List.range 200).map (fun i => ⟨200 + i, 2⟩)

/-- Three original examples. -/
def o3c : List Example := [⟨0, 1⟩, ⟨1, 1⟩, ⟨2, 1⟩]

/-- Three synthesised examples. -/
def s3c : List Example := [⟨3, 2⟩, ⟨4, 2⟩, ⟨5, 2⟩]

/-- One original example. -/
def oW : List Example := [⟨0, 1⟩]

/-- One synthesised example. -/
def sW : List Example := [⟨1, 1⟩]

/-- The run result of `run_ccl_train idPerm natTrain 0 dsTwo 2 cclTwoGroups false`. -/
def rW : RunResult Nat :=
  { model := 2, numTrainEpochs := 1,
    events := [Event.evalStep 0, Event.trainStep [⟨0, 1⟩] 1,
      Event.trainStep [⟨1, 2⟩] 1, Event.evalStep 2] }

/-- The run result of `run_cl_with_synthesised_data idPerm natTrain 0 oW sW 20 false`. -/
def rW₂ : RunResult Nat :=
  { model := 2, numTrainEpochs := 10,
    events := [Event.evalStep 0, Event.trainStep [⟨0, 1⟩] 10,
      Event.trainStep [⟨0, 1⟩, ⟨1, 1⟩] 10, Event.evalStep 2] }

/-- The run result of `run_ccl_train idPerm natTrain 0 dsTwo 2 cclNested false`. -/
def rN : RunResult Nat :=
  { model := 2, numTrainEpochs := 1,
    events := [Event.evalStep 0, Event.trainStep [⟨0, 1⟩] 1,
      Event.trainStep [⟨0, 1⟩, ⟨1, 2⟩] 1, Event.evalStep 2] }

/-- The run result of `run_ccl_train idPerm natTrain 0 dsUncov 2 cclTwoGroups false`. -/
def rU : RunResult Nat :=
  { model := 2, numTrainEpochs := 1,
    events := [Event.evalStep 0, Event.trainStep [⟨0, 1⟩] 1,
      Event.trainStep [] 1, Event.evalStep 2] }

/-- The run result of `run_ccl_train idPerm natTrain 0 dsTwo 2 cclOneEpoch false`. -/
def rC3 : RunResult Nat :=
  { model := 1, numTrainEpochs := 2,
    events := [Event.evalStep 0, Event.trainStep [⟨0, 1⟩] 2, Event.evalStep 1] }

/- ### Permutation infrastructure -/

theorem idPerm_good : GoodGen idPerm := fun _ _ => List.Perm.refl _

theorem applyPerm_range (l : List α) : applyPerm (List.range l.length) l = l := by
  induction l with
  | nil => rfl
  | cons a t ih =>
    simp only [applyPerm] at ih ⊢
    rw [List.length_cons, List.range_succ_eq_map, List.filterMap_cons]
    simp only [List.getElem?_cons_zero, List.filterMap_map, Function.comp_def,
      Nat.succ_eq_add_one, List.getElem?_cons_succ]
    rw [ih]

theorem applyPerm_perm {idx : List Nat} {l : List α}
    (h : idx.Perm (List.range l.length)) : (applyPerm idx l).Perm l := by
  have h2 : (applyPerm idx l).Perm (applyPerm (List.range l.length) l) :=
    List.Perm.filterMap _ h
  rwa [applyPerm_range] at h2

theorem applyPerm_length {idx : List Nat} {l : List α}
    (h : idx.Perm (List.range l.length)) : (applyPerm idx l).length = l.length :=
  (applyPerm_perm h).length_eq

theorem mem_of_mem_applyPerm {a : α} {idx : List Nat} {l : List α}
    (h : a ∈ applyPerm idx l) : a ∈ l := by
  simp only [applyPerm, List.mem_filterMap] at h
  obtain ⟨i, _, hi⟩ := h
  exact List.getElem?_mem hi

theorem dsShuffle_perm {g : Nat → Nat → List Nat} (hg : GoodGen g) (seed : Nat)
    (l : List α) : (dsShuffle g seed l).Perm l :=
  applyPerm_perm (hg seed l.length)

theorem mem_of_mem_dsShuffle {g : Nat → Nat → List Nat} {seed : Nat} {a : α}
    {l : List α} (h : a ∈ dsShuffle g seed l) : a ∈ l :=
  mem_of_mem_applyPerm h

/- ### `train_test_split` infrastructure -/

theorem train_test_split_perm {g : Nat → Nat → List Nat} (hg : GoodGen g)
    (l : List α) (p : ℚ) (seed : Nat) :
    ((train_test_split g l p seed).test ++ (train_test_split g l p seed).train).Perm l := by
  simp only [train_test_split]
  rw [List.take_append_drop]
  exact applyPerm_perm (hg seed l.length)

theorem train_test_split_length {g : Nat → Nat → List Nat} (hg : GoodGen g)
    (l : List α) (p : ℚ) (seed : Nat) :
    (train_test_split g l p seed).test.length
      + (train_test_split g l p seed).train.length = l.length := by
  have h := (train_test_split_perm hg l p seed).length_eq
  simpa using h

theorem mem_of_mem_split_test {g : Nat → Nat → List Nat} {l : List α} {p : ℚ}
    {seed : Nat} {a : α} (h : a ∈ (train_test_split g l p seed).test) : a ∈ l :=
  mem_of_mem_applyPerm (List.mem_of_mem_take h)

theorem mem_of_mem_split_train {g : Nat → Nat → List Nat} {l : List α} {p : ℚ}
    {seed : Nat} {a : α} (h : a ∈ (train_test_split g l p seed).train) : a ∈ l :=
  mem_of_mem_applyPerm (List.mem_of_mem_drop h)

theorem testCount_le {p : ℚ} (hp1 : p < 1) (n : Nat) : testCount p n ≤ n := by
  simp only [testCount]
  rw [Int.toNat_le]
  rw [Int.ceil_le]
  push_cast
  calc p * (n : ℚ) ≤ 1 * (n : ℚ) :=
        mul_le_mul_of_nonneg_right (le_of_lt hp1) (by positivity)
    _ = (n : ℚ) := one_mul _

theorem split_test_length {g : Nat → Nat → List Nat} (hg : GoodGen g)
    {p : ℚ} (hp1 : p < 1) (l : List α) (seed : Nat) :
    (train_test_split g l p seed).test.length = testCount p l.length := by
  simp only [train_test_split, List.length_take]
  rw [applyPerm_length (hg seed l.length)]
  exact Nat.min_eq_left (testCount_le hp1 l.length)

theorem split_train_length {g : Nat → Nat → List Nat} (hg : GoodGen g)
    {p : ℚ} (hp1 : p < 1) (l : List α) (seed : Nat) :
    (train_test_split g l p seed).train.length = l.length - testCount p l.length := by
  have h := train_test_split_length hg l p seed
  rw [split_test_length hg hp1] at h
  omega

theorem split_test_all_mem {g : Nat → Nat → List Nat} (l : List α) (p : ℚ)
    (seed : Nat) : ∀ a ∈ (train_test_split g l p seed).test, a ∈ l :=
  fun _ h => mem_of_mem_split_test h

/- ### Phase-loop infrastructure -/

theorem phaseLoop_eq (tf : μ → List Example → Nat → μ)
    (phases : List (Nat × List Example)) (m : μ) (ne : ℚ) :
    phaseLoop tf phases m ne =
      (phases.foldl (stepOf tf) m,
       (phases.getLast?).elim ne (fun p => ((p.1 : ℕ) : ℚ)),
       phases.map (fun p => Event.trainStep p.2 p.1)) := by
  induction phases generalizing m ne with
  | nil => rfl
  | cons p rest ih =>
    obtain ⟨n, ds⟩ := p
    simp only [phaseLoop, ih, List.foldl_cons, List.map_cons, stepOf]
    cases rest with
    | nil => rfl
    | cons q t =>
      rw [List.getLast?_cons_cons]
      cases hq : (q :: t).getLast? with
      | none =>
        have hs : (q :: t).getLast?.isSome := List.getLast?_isSome.mpr (by simp)
        rw [hq] at hs
        simp at hs
      | some p => simp

theorem runPhases_eq (tf : μ → List Example → Nat → μ)
    (phases : List (Nat × List Example)) (m : μ) (ne : ℚ) (h : phases ≠ []) :
    runPhases tf phases m ne = .ok
      { model := phases.foldl (stepOf tf) m,
        numTrainEpochs := (phases.getLast?).elim ne (fun p => ((p.1 : ℕ) : ℚ)),
        events := Event.evalStep m :: phases.map (fun p => Event.trainStep p.2 p.1)
          ++ [Event.evalStep (phases.foldl (stepOf tf) m)] } := by
  have hne : ¬ (phases.isEmpty = true) := by
    simpa [List.isEmpty_iff] using h
  simp only [runPhases, if_neg hne, phaseLoop_eq]

theorem trainedSubsets_of_trace (m mf : μ) (phases : List (Nat × List Example)) :
    trainedSubsets (Event.evalStep m :: phases.map (fun p => Event.trainStep p.2 p.1)
      ++ [Event.evalStep mf]) = phases.map (fun p => p.2) := by
  simp only [trainedSubsets, List.filterMap_cons, List.filterMap_append,
    List.filterMap_map]
  induction phases with
  | nil => rfl
  | cons p rest ih =>
    simp only [List.filterMap_cons, Function.comp_def] at ih ⊢
    simp_all

/- ### Inversion of successful runs -/

theorem runPhases_ok {μ : Type u} {tf : μ → List Example → Nat → μ}
    {phases : List (Nat × List Example)} {m : μ} {ne : ℚ} {r : RunResult μ}
    (h : runPhases tf phases m ne = .ok r) :
    phases ≠ [] ∧
    r.model = phases.foldl (stepOf tf) m ∧
    r.numTrainEpochs = (phases.getLast?).elim ne (fun p => ((p.1 : ℕ) : ℚ)) ∧
    r.events = Event.evalStep m :: phases.map (fun p => Event.trainStep p.2 p.1)
      ++ [Event.evalStep (phases.foldl (stepOf tf) m)] := by
  by_cases hE : phases = []
  · subst hE
    simp [runPhases] at h
  · have h' := h
    rw [runPhases_eq tf phases m ne hE] at h'
    have hr := (Except.ok.inj h').symm
    subst hr
    exact ⟨hE, rfl, rfl, rfl⟩

theorem run_ccl_train_ok {μ : Type u} {g : Nat → Nat → List Nat}
    {tf : μ → List Example → Nat → μ} {m : μ} {ds : List Example} {ne : ℚ}
    {ccl : CCLArguments} {um : Bool} {r : RunResult μ}
    (h : run_ccl_train g tf m ds ne ccl um = .ok r) :
    ne = ((ccl.n_epochs.sum : ℕ) : ℚ) ∧
    ∃ tds, cclDatasets g ds ccl um = .ok tds ∧
      runPhases tf (ccl.n_epochs.zip tds) m ne = .ok r := by
  by_cases hne : ne = ((ccl.n_epochs.sum : ℕ) : ℚ)
  · refine ⟨hne, ?_⟩
    cases hd : cclDatasets g ds ccl um with
    | error e =>
      simp only [run_ccl_train, if_pos hne, hd] at h
      exact Except.noConfusion h
    | ok tds =>
      simp only [run_ccl_train, if_pos hne, hd] at h
      exact ⟨tds, rfl, h⟩
  · simp only [run_ccl_train, if_neg hne] at h
    exact Except.noConfusion h

theorem run_cl_ok {μ : Type u} {g : Nat → Nat → List Nat}
    {tf : μ → List Example → Nat → μ} {m : μ} {o s : List Example} {ne : ℚ}
    {um : Bool} {r : RunResult μ}
    (h : run_cl_with_synthesised_data g tf m o s ne um = .ok r) :
    ne = ((20 : ℕ) : ℚ) ∧
    ∃ tds, (if um then uniform_mixing_tts g [o, s] (1/5)
              else .ok [o, o ++ s]) = .ok tds ∧
      runPhases tf (([10, 10] : List Nat).zip tds) m ne = .ok r := by
  by_cases hne : ne = ((([10, 10] : List Nat).sum : ℕ) : ℚ)
  · refine ⟨by simpa using hne, ?_⟩
    cases hd : (if um then uniform_mixing_tts g [o, s] (1/5)
        else .ok [o, o ++ s] : Except PyError (List (List Example))) with
    | error e =>
      simp only [run_cl_with_synthesised_data, if_pos hne, hd] at h
      exact Except.noConfusion h
    | ok tds =>
      simp only [run_cl_with_synthesised_data, if_pos hne, hd] at h
      exact ⟨tds, rfl, h⟩
  · simp only [run_cl_with_synthesised_data, if_neg hne] at h
    exact Except.noConfusion h

theorem uniform_mixing_tts_ok_length {g : Nat → Nat → List Nat}
    {ds : List (List Example)} {p : ℚ} {rs : List (List Example)}
    (h : uniform_mixing_tts g ds p = .ok rs) : rs.length = 2 := by
  rcases ds with _ | ⟨a, _ | ⟨b, _ | ⟨c, t⟩⟩⟩
  · exact Except.noConfusion h
  · exact Except.noConfusion h
  · simp only [uniform_mixing_tts] at h
    split_ifs at h
    injection h with h'
    rw [← h']
    rfl
  · exact Except.noConfusion h

theorem uniform_mixing_ok_length {g : Nat → Nat → List Nat}
    {ds : List (List Example)} {p : ℚ} {k : Nat} {rs : List (List Example)}
    (h : uniform_mixing g ds p k = .ok rs) : rs.length = 3 := by
  rcases ds with _ | ⟨a, _ | ⟨b, _ | ⟨c, _ | ⟨d, t⟩⟩⟩⟩
  · exact Except.noConfusion h
  · exact Except.noConfusion h
  · exact Except.noConfusion h
  · simp only [uniform_mixing] at h
    split_ifs at h
    injection h with h'
    rw [← h']
    rfl
  · exact Except.noConfusion h

theorem trainedSubsets_run {μ : Type u} {tf : μ → List Example → Nat → μ}
    {phases : List (Nat × List Example)} {m : μ} {ne : ℚ} {r : RunResult μ}
    (h : runPhases tf phases m ne = .ok r) :
    trainedSubsets r.events = phases.map (fun p => p.2) := by
  obtain ⟨-, -, -, hevents⟩ := runPhases_ok h
  rw [hevents, trainedSubsets_of_trace]

theorem chain'_subset_getLast {l : List (List β)}
    (h : List.Chain' (fun a b => a ⊆ b) l) :
    ∀ b ∈ l, b ⊆ (l.getLast?).getD [] := by
  induction l with
  | nil => simp
  | cons a t ih =>
    obtain ⟨hhead, htail⟩ := List.chain'_cons'.mp h
    intro b hb
    rcases List.mem_cons.mp hb with rfl | hbt
    · cases t with
      | nil => simp
      | cons c u =>
        have hac : b ⊆ c := hhead c rfl
        rw [List.getLast?_cons_cons]
        exact fun x hx => ih htail c (by simp) (hac hx)
    · cases t with
      | nil => simp at hbt
      | cons c u =>
        rw [List.getLast?_cons_cons]
        exact ih htail b hbt

/-- Every element of every output collection of `uniform_mixing` comes
from one of the input buckets: the mixing only moves examples around. -/
theorem uniform_mixing_mem {g : Nat → Nat → List Nat} {bs : List (List Example)}
    {p : ℚ} {k : Nat} {rs : List (List Example)}
    (h : uniform_mixing g bs p k = .ok rs) :
    ∀ out ∈ rs, ∀ x ∈ out, ∃ b ∈ bs, x ∈ b := by
  rcases bs with _ | ⟨eb, _ | ⟨mb, _ | ⟨hb, _ | ⟨d, t⟩⟩⟩⟩
  · exact Except.noConfusion h
  · exact Except.noConfusion h
  · exact Except.noConfusion h
  · simp only [uniform_mixing] at h
    split_ifs at h
    have hrs := (Except.ok.inj h).symm
    subst hrs
    have hE : ∀ x ∈ dsShuffle g 201123 ((train_test_split g eb p 201123).train
        ++ (train_test_split g mb (p/2) 201123).test
        ++ (train_test_split g hb (p/2) 201123).test), ∃ b ∈ [eb, mb, hb], x ∈ b := by
      intro x hx
      rcases List.mem_append.mp (mem_of_mem_dsShuffle hx) with hx2 | hC
      · rcases List.mem_append.mp hx2 with hA | hB
        · exact ⟨eb, by simp, mem_of_mem_split_train hA⟩
        · exact ⟨mb, by simp, mem_of_mem_split_test hB⟩
      · exact ⟨hb, by simp, mem_of_mem_split_test hC⟩
    have hM : ∀ x ∈ dsShuffle g 201123 ((train_test_split g mb (p/2) 201123).train
        ++ (train_test_split g (train_test_split g eb p 201123).test (1/2) 201123).train),
        ∃ b ∈ [eb, mb, hb], x ∈ b := by
      intro x hx
      rcases List.mem_append.mp (mem_of_mem_dsShuffle hx) with hB | hR
      · exact ⟨mb, by simp, mem_of_mem_split_train hB⟩
      · exact ⟨eb, by simp, mem_of_mem_split_test (mem_of_mem_split_train hR)⟩
    have hH : ∀ x ∈ dsShuffle g 201123 ((train_test_split g hb (p/2) 201123).train
        ++ (train_test_split g (train_test_split g eb p 201123).test (1/2) 201123).test),
        ∃ b ∈ [eb, mb, hb], x ∈ b := by
      intro x hx
      rcases List.mem_append.mp (mem_of_mem_dsShuffle hx) with hC | hR
      · exact ⟨hb, by simp, mem_of_mem_split_train hC⟩
      · exact ⟨eb, by simp, mem_of_mem_split_test (mem_of_mem_split_test hR)⟩
    intro out hout x hx
    rcases List.mem_cons.mp hout with rfl | hout2
    · exact hE x hx
    rcases List.mem_cons.mp hout2 with rfl | hout3
    · rcases List.mem_append.mp (mem_of_mem_dsShuffle hx) with h1 | h2
      · exact hE x h1
      · exact hM x h2
    rcases List.mem_cons.mp hout3 with rfl | hout4
    · rcases List.mem_append.mp (mem_of_mem_dsShuffle hx) with h12 | h3
      · rcases List.mem_append.mp h12 with h1 | h2
        · exact hE x h1
        · exact hM x h2
      · exact hH x h3
    · simp at hout4
  · exact Except.noConfusion h

/-- Per-collection statistics of a successful pairwise mix: for each
returned collection, the number of synthesised examples it contains and
its size.  The phase-0 set keeps `|o| - ⌈p·|o|⌉` original rows and gains
`⌈p·|s|⌉` synthesised ones; the phase-1 set holds all `|o| + |s|` rows,
`|s|` of them synthesised. -/
theorem tts_counts {g : Nat → Nat → List Nat} (hg : GoodGen g)
    {o s : List Example} {p : ℚ} (hp0 : 0 < p) (hp1 : p < 1)
    (hdisj : ∀ a ∈ o, a ∉ s) :
    (uniform_mixing_tts g [o, s] p).map
      (fun rs => rs.map (fun l => (l.countP (fun x => decide (x ∈ s)), l.length)))
      = .ok [(testCount p s.length,
              (o.length - testCount p o.length) + testCount p s.length),
             (s.length, o.length + s.length)] := by
  have hOtr0 : (train_test_split g o p 201123).train.countP
      (fun x => decide (x ∈ s)) = 0 := by
    rw [List.countP_eq_zero]
    intro a ha
    simpa using hdisj a (mem_of_mem_split_train ha)
  have hOte0 : (train_test_split g o p 201123).test.countP
      (fun x => decide (x ∈ s)) = 0 := by
    rw [List.countP_eq_zero]
    intro a ha
    simpa using hdisj a (mem_of_mem_split_test ha)
  have hStest : (train_test_split g s p 201123).test.countP
      (fun x => decide (x ∈ s)) = (train_test_split g s p 201123).test.length := by
    rw [List.countP_eq_length]
    intro a ha
    simpa using mem_of_mem_split_test ha
  have hStr : (train_test_split g s p 201123).train.countP
      (fun x => decide (x ∈ s)) = (train_test_split g s p 201123).train.length := by
    rw [List.countP_eq_length]
    intro a ha
    simpa using mem_of_mem_split_train ha
  have hshuf : ∀ (sd : Nat) (l : List Example), (dsShuffle g sd l).length = l.length :=
    fun sd l => (dsShuffle_perm hg sd l).length_eq
  have hshufP : ∀ (sd : Nat) (l : List Example),
      (dsShuffle g sd l).countP (fun x => decide (x ∈ s))
        = l.countP (fun x => decide (x ∈ s)) :=
    fun sd l => (dsShuffle_perm hg sd l).countP_eq _
  have hOtest := split_test_length hg hp1 o 201123
  have hOtrain := split_train_length hg hp1 o 201123
  have hStest_len := split_test_length hg hp1 s 201123
  have hStrain_len := split_train_length hg hp1 s 201123
  have htcO := testCount_le hp1 o.length
  have htcS := testCount_le hp1 s.length
  simp only [uniform_mixing_tts, if_pos (show 0 < p ∧ p < 1 from ⟨hp0, hp1⟩),
    Except.map, List.map_cons, List.map_nil, Except.ok.injEq, List.cons.injEq,
    Prod.mk.injEq, and_true, List.countP_append, List.length_append,
    hshuf, hshufP, hOtr0, hOte0, hStest, hStr, hOtest, hOtrain, hStest_len,
    hStrain_len]
  omega

/- ### Claim C1 -/

/-- Claim C1, counterexample: with the disjoint difficulty groups
`[[1], [2]]` over three examples (two of label 1, one of label 2) and a
matching epoch budget `[1, 1]` summing to the declared total 2, the two
phase subsets trained by `run_ccl_train` have sizes `[2, 1]`: sizes are
not non-decreasing, and the final phase subset (one example) is not the
union of the buckets (three examples) — the first bucket's example is
absent from it.  Phase `i` is bucket `i` alone, not the cumulative
union. -/
theorem C1_counterexample :
    ((run_ccl_train idPerm natTrain 0 dsC1 2 cclTwoGroups false).map
      (fun r => (trainedSubsets r.events).map List.length)) = Except.ok [2, 1] ∧
    ((run_ccl_train idPerm natTrain 0 dsC1 2 cclTwoGroups false).map
      (fun r => decide ((⟨0, 1⟩ : Example)
        ∈ ((trainedSubsets r.events).getLast?).getD []))) = Except.ok false ∧
    ¬ (2 ≤ 1) :=
  ⟨by decide, by decide, by omega⟩

/-- Claim C1 (amended): in `run_ccl_train` (without uniform mixing),
phase `i`'s training subset is exactly bucket `i` — the examples whose
label lies in `difficulty_order[i]` — not an explicit union.  When the
declared groups are nested (each group contains its predecessor, the
configuration the code is written for), the phases are cumulative in the
set sense: subset sizes are non-decreasing and an example belongs to the
final phase subset exactly when it belongs to some bucket. -/
theorem C1_phases_cumulative_when_nested {μ : Type u} {g : Nat → Nat → List Nat}
    {tf : μ → List Example → Nat → μ} {m : μ} {ds : List Example} {ne : ℚ}
    {ccl : CCLArguments} {r : RunResult μ}
    (hlen : ccl.n_epochs.length = ccl.difficulty_order.length)
    (hnested : List.Chain' (fun a b => a ⊆ b) ccl.difficulty_order)
    (hr : run_ccl_train g tf m ds ne ccl false = .ok r) :
    trainedSubsets r.events = cclBuckets ds ccl ∧
    List.Chain' (fun a b => a ≤ b) ((trainedSubsets r.events).map List.length) ∧
    (∀ x, (∃ b ∈ cclBuckets ds ccl, x ∈ b) ↔
      x ∈ ((trainedSubsets r.events).getLast?).getD []) := by
  obtain ⟨-, tds, htds, hrp⟩ := run_ccl_train_ok hr
  have hd : cclDatasets g ds ccl false = .ok (cclBuckets ds ccl) := rfl
  rw [hd] at htds
  have heq := Except.ok.inj htds
  subst heq
  have hblen : (cclBuckets ds ccl).length = ccl.n_epochs.length := by
    rw [cclBuckets, List.length_map, hlen]
  have hsubs : trainedSubsets r.events = cclBuckets ds ccl := by
    rw [trainedSubsets_run hrp]
    exact List.map_snd_zip _ _ (le_of_eq hblen)
  have hbnested : List.Chain' (fun a b => a ⊆ b) (cclBuckets ds ccl) := by
    rw [cclBuckets]
    rw [List.chain'_map]
    refine hnested.imp ?_
    intro a b hab x hx
    rw [List.mem_filter] at hx ⊢
    refine ⟨hx.1, ?_⟩
    have := hab (by simpa using hx.2)
    simpa using this
  refine ⟨hsubs, ?_, ?_⟩
  · rw [hsubs, cclBuckets, List.map_map, List.chain'_map]
    refine hnested.imp ?_
    intro a b hab
    have hsl : (ds.filter (fun e => decide (e.cefr_mean ∈ a))).Sublist
        (ds.filter (fun e => decide (e.cefr_mean ∈ b))) := by
      refine List.monotone_filter_right ds ?_
      intro x hx
      simp only [decide_eq_true_eq] at hx ⊢
      exact hab hx
    simpa using hsl.length_le
  · intro x
    rw [hsubs]
    constructor
    · rintro ⟨b, hb, hxb⟩
      exact chain'_subset_getLast hbnested b hb hxb
    · intro hx
      cases hlast : (cclBuckets ds ccl).getLast? with
      | none =>
        rw [hlast] at hx
        simp at hx
      | some b =>
        rw [hlast] at hx
        simp only [Option.getD_some] at hx
        have hbmem : b ∈ cclBuckets ds ccl := by
          have hmem : b ∈ (cclBuckets ds ccl).getLast? := by
            rw [hlast]
            rfl
          obtain ⟨hne', rfl⟩ := List.mem_getLast?_eq_getLast hmem
          exact List.getLast_mem hne'
        exact ⟨b, hbmem, hx⟩

/-- Claim C1, witness: the nested configuration `[[1], [1, 2]]` on two
examples produces subsets equal to the buckets, with non-decreasing
sizes, and the first bucket's example lies in the final phase subset. -/
theorem C1_witness :
    trainedSubsets rN.events = cclBuckets dsTwo cclNested ∧
    List.Chain' (fun a b => a ≤ b) ((trainedSubsets rN.events).map List.length) ∧
    (⟨0, 1⟩ : Example) ∈ ((trainedSubsets rN.events).getLast?).getD [] := by
  have hnested : List.Chain' (fun a b => a ⊆ b) cclNested.difficulty_order := by
    rw [show cclNested.difficulty_order = [[1], [1, 2]] from rfl, List.chain'_pair]
    intro x hx
    rw [List.mem_singleton.mp hx]
    simp
  have h := C1_phases_cumulative_when_nested (by decide) hnested
    (show run_ccl_train idPerm natTrain 0 dsTwo 2 cclNested false = .ok rN by decide)
  exact ⟨h.1, h.2.1, (h.2.2 ⟨0, 1⟩).mp ⟨[⟨0, 1⟩], by decide, by decide⟩⟩

/- ### Claim C2 -/

/-- Claim C2, counterexample: the single training example has label 3,
covered by no group of `cclTwoGroups = [[1], [2]]`, yet `run_ccl_train`
does not fail: it returns successfully, training two phases whose
subsets are both empty — the uncovered example is silently dropped, and
no `ConfigurationError`/`DataConsistencyError` is raised (the coverage
assert in the source is commented out). -/
theorem C2_counterexample :
    (run_ccl_train idPerm natTrain 0 dsC2 2 cclTwoGroups false).map
      (fun r => trainedSubsets r.events) = Except.ok [[], []] ∧
    (3 : ℚ) ∉ ([1] : List ℚ) ∧ (3 : ℚ) ∉ ([2] : List ℚ) :=
  ⟨by decide, by decide, by decide⟩

/-- Claim C2 (amended): `run_ccl_train` performs no coverage check.  An
example whose `cefr_mean` belongs to no declared difficulty group is
silently excluded from every trained phase subset, and the run proceeds
without error (with or without uniform mixing). -/
theorem C2_uncovered_label_silently_dropped {μ : Type u} {g : Nat → Nat → List Nat}
    {tf : μ → List Example → Nat → μ} {m : μ} {ds : List Example} {ne : ℚ}
    {ccl : CCLArguments} {um : Bool} {r : RunResult μ} {e : Example}
    (hun : ∀ grp ∈ ccl.difficulty_order, e.cefr_mean ∉ grp)
    (hr : run_ccl_train g tf m ds ne ccl um = .ok r) :
    ∀ sub ∈ trainedSubsets r.events, e ∉ sub := by
  obtain ⟨-, tds, htds, hrp⟩ := run_ccl_train_ok hr
  rw [trainedSubsets_run hrp]
  intro sub hsub hmem
  simp only [List.mem_map] at hsub
  obtain ⟨q, hq, rfl⟩ := hsub
  obtain ⟨n, b⟩ := q
  have hsub_tds : b ∈ tds := (List.of_mem_zip hq).2
  have hbuck : ∀ b' ∈ cclBuckets ds ccl, e ∉ b' := by
    intro b' hb' hmem'
    simp only [cclBuckets, List.mem_map] at hb'
    obtain ⟨grp, hgrp, rfl⟩ := hb'
    rw [List.mem_filter] at hmem'
    exact hun grp hgrp (by simpa using hmem'.2)
  by_cases hu : um = true
  · simp only [cclDatasets, if_pos hu] at htds
    obtain ⟨b', hb', hbmem⟩ := uniform_mixing_mem htds b hsub_tds e hmem
    exact hbuck b' hb' hbmem
  · simp only [cclDatasets, if_neg hu] at htds
    have heq := Except.ok.inj htds
    subst heq
    exact hbuck b hsub_tds hmem

/-- Claim C2, witness: on `dsUncov` (one covered, one uncovered example)
the run succeeds with subsets `[[⟨0,1⟩], []]`, and the uncovered example
`⟨1, 3⟩` is in neither. -/
theorem C2_witness :
    (run_ccl_train idPerm natTrain 0 dsUncov 2 cclTwoGroups false).map
      (fun r => trainedSubsets r.events) = Except.ok [[⟨0, 1⟩], []] ∧
    (⟨1, 3⟩ : Example) ∉ ([⟨0, 1⟩] : List Example) := by
  refine ⟨by decide, ?_⟩
  exact C2_uncovered_label_silently_dropped (e := ⟨1, 3⟩) (by decide)
    (show run_ccl_train idPerm natTrain 0 dsUncov 2 cclTwoGroups false = .ok rU
      by decide) [⟨0, 1⟩] (by decide)

/- ### Claim C3 -/

/-- Claim C3, counterexample: `cclOneEpoch` declares two difficulty
groups but a single epoch entry (`len(buckets) ≠ len(epoch_budget)`),
yet `run_ccl_train` raises no error: `zip` silently truncates, a single
phase is trained on the first bucket only, and the second bucket is
ignored. -/
theorem C3_counterexample :
    cclOneEpoch.n_epochs.length ≠ cclOneEpoch.difficulty_order.length ∧
    (run_ccl_train idPerm natTrain 0 dsTwo 2 cclOneEpoch false).map
      (fun r => trainedSubsets r.events) = Except.ok [[⟨0, 1⟩]] :=
  ⟨by decide, by decide⟩

/-- Claim C3 (amended): `run_ccl_train` performs no length check on
`n_epochs` versus `difficulty_order`.  The phase loop runs over
`zip(n_epochs, buckets)`, so exactly `min` of the two lengths phases are
trained and any surplus epoch entries or buckets are silently
ignored. -/
theorem C3_length_mismatch_truncated {μ : Type u} {g : Nat → Nat → List Nat}
    {tf : μ → List Example → Nat → μ} {m : μ} {ds : List Example} {ne : ℚ}
    {ccl : CCLArguments} {r : RunResult μ}
    (hr : run_ccl_train g tf m ds ne ccl false = .ok r) :
    (trainedSubsets r.events).length
      = min ccl.n_epochs.length ccl.difficulty_order.length := by
  obtain ⟨-, tds, htds, hrp⟩ := run_ccl_train_ok hr
  rw [trainedSubsets_run hrp]
  have hd : cclDatasets g ds ccl false = .ok (cclBuckets ds ccl) := rfl
  rw [hd] at htds
  have heq := Except.ok.inj htds
  subst heq
  rw [List.length_map, List.length_zip, cclBuckets, List.length_map]

/-- Claim C3, witness: the mismatched configuration `cclOneEpoch`
(1 epoch entry, 2 groups) trains `min 1 2 = 1` phase. -/
theorem C3_witness :
    (trainedSubsets rC3.events).length
      = min cclOneEpoch.n_epochs.length cclOneEpoch.difficulty_order.length :=
  C3_length_mismatch_truncated
    (show run_ccl_train idPerm natTrain 0 dsTwo 2 cclOneEpoch false = .ok rC3
      by decide)

/- ### Claim C4 -/

/-- Claim C4: both mixing variants preserve the total example count.
For any generator satisfying the permutation contract, any three buckets
(respecting the unique-classes guard) and any `swap_proportion` in
`(0,1)`, the final returned collection of `uniform_mixing` — the shuffled
concatenation of the three mixed constituent buckets — has exactly
`|easy| + |medium| + |hard|` examples, and likewise the final collection
of `uniform_mixing_tts` has `|original| + |synthesised|` examples. -/
theorem C4_mixing_preserves_total_count {g : Nat → Nat → List Nat} (hg : GoodGen g)
    (eb mb hb o s : List Example) (p : ℚ) (k : Nat)
    (hp0 : 0 < p) (hp1 : p < 1) (hk : uniqueCount hb ≠ k) :
    (uniform_mixing g [eb, mb, hb] p k).map (fun rs => (rs.map List.length).getLast?)
        = .ok (some (eb.length + mb.length + hb.length)) ∧
      (uniform_mixing_tts g [o, s] p).map (fun rs => (rs.map List.length).getLast?)
        = .ok (some (o.length + s.length)) := by
  have hshuf : ∀ (sd : Nat) (l : List Example), (dsShuffle g sd l).length = l.length :=
    fun sd l => (dsShuffle_perm hg sd l).length_eq
  constructor
  · have h1 := train_test_split_length hg eb p 201123
    have h2 := train_test_split_length hg (train_test_split g eb p 201123).test
      (1/2) 201123
    have h3 := train_test_split_length hg mb (p/2) 201123
    have h4 := train_test_split_length hg hb (p/2) 201123
    simp only [uniform_mixing, if_pos (show 0 < p ∧ p < 1 from ⟨hp0, hp1⟩), if_neg hk,
      Except.map, List.map_cons, List.map_nil, List.getLast?_cons_cons,
      List.getLast?_singleton, hshuf, List.length_append,
      Except.ok.injEq, Option.some.injEq]
    omega
  · have h1 := train_test_split_length hg o p 201123
    have h2 := train_test_split_length hg s p 201123
    simp only [uniform_mixing_tts, if_pos (show 0 < p ∧ p < 1 from ⟨hp0, hp1⟩),
      Except.map, List.map_cons, List.map_nil, List.getLast?_cons_cons,
      List.getLast?_singleton, hshuf, List.length_append,
      Except.ok.injEq, Option.some.injEq]
    omega

/-- Claim C4, witness: concrete buckets of sizes 2, 1, 1 mix to a final
collection of 4 examples; a concrete 1-and-1 pairwise mix yields 2. -/
theorem C4_witness :
    (uniform_mixing idPerm [[⟨0, 1⟩, ⟨1, 1⟩], [⟨2, 2⟩], [⟨3, 3⟩]] (1/2) 2).map
        (fun rs => (rs.map List.length).getLast?) = .ok (some 4) ∧
      (uniform_mixing_tts idPerm [oW, sW] (1/2)).map
        (fun rs => (rs.map List.length).getLast?) = .ok (some 2) := by
  have h := C4_mixing_preserves_total_count idPerm_good [⟨0, 1⟩, ⟨1, 1⟩] [⟨2, 2⟩]
    [⟨3, 3⟩] oW sW (1/2) 2 (by norm_num) (by norm_num) (by decide)
  simpa [oW, sW] using h

/- ### Claim C5 -/

/-- Claim C5: both mixing variants are deterministic given the fixed
seed.  Every split and shuffle uses the hard-coded seed `201123`, so the
output depends only on the inputs and the generator's stream at that
seed: two generators agreeing at seed `201123` give identical outputs on
all inputs (in particular, two calls with identical inputs and seed give
identical bucket contents). -/
theorem C5_mixing_deterministic (g₁ g₂ : Nat → Nat → List Nat)
    (h : ∀ n, g₁ 201123 n = g₂ 201123 n) (ds ds₂ : List (List Example)) (p : ℚ)
    (k : Nat) :
    uniform_mixing g₁ ds p k = uniform_mixing g₂ ds p k ∧
      uniform_mixing_tts g₁ ds₂ p = uniform_mixing_tts g₂ ds₂ p := by
  constructor
  · rcases ds with _ | ⟨a, _ | ⟨b, _ | ⟨c, _ | ⟨d, t⟩⟩⟩⟩ <;>
      simp only [uniform_mixing, train_test_split, dsShuffle, applyPerm, h]
  · rcases ds₂ with _ | ⟨a, _ | ⟨b, _ | ⟨c, t⟩⟩⟩ <;>
      simp only [uniform_mixing_tts, train_test_split, dsShuffle, applyPerm, h]

/-- Claim C5, witness: `idPerm` and `constRange` agree at seed `201123`
and indeed produce identical mixing results on concrete inputs. -/
theorem C5_witness :
    uniform_mixing idPerm [[⟨0, 1⟩], [⟨1, 2⟩], [⟨2, 3⟩]] (1/2) 2
        = uniform_mixing constRange [[⟨0, 1⟩], [⟨1, 2⟩], [⟨2, 3⟩]] (1/2) 2 ∧
      uniform_mixing_tts idPerm [oW, sW] (1/2)
        = uniform_mixing_tts constRange [oW, sW] (1/2) :=
  C5_mixing_deterministic idPerm constRange
    (fun n => by simp [idPerm, constRange]) [[⟨0, 1⟩], [⟨1, 2⟩], [⟨2, 3⟩]] [oW, sW]
    (1/2) 2

/- ### Claim C6 -/

/-- Claim C6: a `swap_proportion` of exactly 0 or exactly 1 is rejected
by both mixing variants before any mixing is performed — the range
assert (`assert swap_proportion > 0 and swap_proportion < 1` in the
source, raising `AssertionError`, the check the spec's taxonomy calls
`ConfigurationError`) fails and an error is returned. -/
theorem C6_swap_proportion_boundary_rejected (g : Nat → Nat → List Nat)
    (ds3 ds2 : List (List Example)) (k : Nat) (p : ℚ)
    (h3 : ds3.length = 3) (h2 : ds2.length = 2) (hp : p = 0 ∨ p = 1) :
    uniform_mixing g ds3 p k = .error .assertSwapRange ∧
      uniform_mixing_tts g ds2 p = .error .assertSwapRange := by
  obtain ⟨a, b, c, rfl⟩ := List.length_eq_three.mp h3
  obtain ⟨x, y, rfl⟩ := List.length_eq_two.mp h2
  have hcond : ¬ (0 < p ∧ p < 1) := by
    rcases hp with rfl | rfl <;> simp
  constructor
  · simp only [uniform_mixing, if_neg hcond]
  · simp only [uniform_mixing_tts, if_neg hcond]

/-- Claim C6, witness: `swap_proportion = 0` on concrete inputs is
rejected by both variants. -/
theorem C6_witness :
    uniform_mixing idPerm [[], [], []] 0 0 = .error .assertSwapRange ∧
      uniform_mixing_tts idPerm [[], []] 0 = .error .assertSwapRange :=
  C6_swap_proportion_boundary_rejected idPerm [[], [], []] [[], []] 0 0 rfl rfl
    (Or.inl rfl)

/- ### Claim C8 -/

/-- Claim C8: both curriculum runners check the epoch sum before any
training.  If `num_train_epochs` differs from `sum(n_epochs)` (for
`run_cl_with_synthesised_data`, from `sum([10, 10]) = 20`), the run
fails immediately with the epoch-sum assert (the source's
`assert training_args.num_train_epochs == sum(...)`, an
`AssertionError`, the check the spec's taxonomy calls
`ConfigurationError`) and no phase is trained: the result is the bare
error, carrying no train events. -/
theorem C8_epoch_sum_checked_before_training {μ : Type u} (g : Nat → Nat → List Nat)
    (tf : μ → List Example → Nat → μ) (m : μ) (ds synth : List Example)
    (ne ne₂ : ℚ) (ccl : CCLArguments) (um um₂ : Bool)
    (h : ne ≠ ((ccl.n_epochs.sum : ℕ) : ℚ)) (h₂ : ne₂ ≠ (20 : ℚ)) :
    run_ccl_train g tf m ds ne ccl um = .error .assertEpochSum ∧
      run_cl_with_synthesised_data g tf m ds synth ne₂ um₂
        = .error .assertEpochSum := by
  constructor
  · simp only [run_ccl_train, if_neg h]
  · have h20 : ne₂ ≠ ((([10, 10] : List Nat).sum : ℕ) : ℚ) := by
      intro heq
      apply h₂
      rw [heq]
      norm_num
    simp only [run_cl_with_synthesised_data, if_neg h20]

/-- Claim C8, witness: a declared total of 1 epoch against budgets
summing to 2 (and to 20) fails with the epoch-sum error in both
runners. -/
theorem C8_witness :
    run_ccl_train idPerm natTrain 0 dsTwo 1 cclTwoGroups false
        = .error .assertEpochSum ∧
      run_cl_with_synthesised_data idPerm natTrain 0 oW sW 1 false
        = .error .assertEpochSum :=
  C8_epoch_sum_checked_before_training idPerm natTrain 0 dsTwo oW 1 1
    cclTwoGroups false false (by decide) (by decide)

/- ### Claim C9 -/

/-- Claim C9: for every successful run of either curriculum runner, the
trace is exactly one baseline evaluation of the initial model state,
then one train event per scheduled phase — the model being folded
through the phases, each phase starting from the state the previous one
produced, never re-initialised — and one final evaluation of the
resulting model; in particular exactly two explicit evaluations
happen. -/
theorem C9_phase_runner_contract {μ ν : Type u} {g g₂ : Nat → Nat → List Nat}
    {tf : μ → List Example → Nat → μ} {tf₂ : ν → List Example → Nat → ν}
    {m : μ} {m₂ : ν} {ds o s : List Example} {ne ne₂ : ℚ} {ccl : CCLArguments}
    {um um₂ : Bool} {r : RunResult μ} {r₂ : RunResult ν}
    (hc : run_ccl_train g tf m ds ne ccl um = .ok r)
    (hs : run_cl_with_synthesised_data g₂ tf₂ m₂ o s ne₂ um₂ = .ok r₂) :
    ((∃ tds, cclDatasets g ds ccl um = .ok tds ∧
       (ccl.n_epochs.zip tds) ≠ [] ∧
       r.model = (ccl.n_epochs.zip tds).foldl (stepOf tf) m ∧
       r.events = Event.evalStep m
         :: (ccl.n_epochs.zip tds).map (fun p => Event.trainStep p.2 p.1)
         ++ [Event.evalStep r.model]) ∧
      r.events.countP Event.isEvalStep = 2) ∧
    ((∃ tds₂, (if um₂ then uniform_mixing_tts g₂ [o, s] (1/5)
          else .ok [o, o ++ s]) = .ok tds₂ ∧
       (([10, 10] : List Nat).zip tds₂) ≠ [] ∧
       r₂.model = (([10, 10] : List Nat).zip tds₂).foldl (stepOf tf₂) m₂ ∧
       r₂.events = Event.evalStep m₂
         :: ((([10, 10] : List Nat)).zip tds₂).map (fun p => Event.trainStep p.2 p.1)
         ++ [Event.evalStep r₂.model]) ∧
      r₂.events.countP Event.isEvalStep = 2) := by
  obtain ⟨-, tds, htds, hrp⟩ := run_ccl_train_ok hc
  obtain ⟨hne', hmodel, -, hevents⟩ := runPhases_ok hrp
  obtain ⟨-, tds₂, htds₂, hrp₂⟩ := run_cl_ok hs
  obtain ⟨hne₂', hmodel₂, -, hevents₂⟩ := runPhases_ok hrp₂
  refine ⟨⟨⟨tds, htds, hne', hmodel, ?_⟩, ?_⟩, ⟨tds₂, htds₂, hne₂', hmodel₂, ?_⟩, ?_⟩
  · rw [hevents, hmodel]
  · rw [hevents]
    simp [List.countP_cons, List.countP_append, List.countP_map, Event.isEvalStep,
      Function.comp_def]
  · rw [hevents₂, hmodel₂]
  · rw [hevents₂]
    simp [List.countP_cons, List.countP_append, List.countP_map, Event.isEvalStep,
      Function.comp_def]

/-- Claim C9, witness: the contract instantiated on two concrete
successful runs. -/
theorem C9_witness :
    ((∃ tds, cclDatasets idPerm dsTwo cclTwoGroups false = .ok tds ∧
       (cclTwoGroups.n_epochs.zip tds) ≠ [] ∧
       rW.model = (cclTwoGroups.n_epochs.zip tds).foldl (stepOf natTrain) 0 ∧
       rW.events = Event.evalStep 0
         :: (cclTwoGroups.n_epochs.zip tds).map (fun p => Event.trainStep p.2 p.1)
         ++ [Event.evalStep rW.model]) ∧
      rW.events.countP Event.isEvalStep = 2) ∧
    ((∃ tds₂, (if false then uniform_mixing_tts idPerm [oW, sW] (1/5)
          else .ok [oW, oW ++ sW]) = .ok tds₂ ∧
       (([10, 10] : List Nat).zip tds₂) ≠ [] ∧
       rW₂.model = (([10, 10] : List Nat).zip tds₂).foldl (stepOf natTrain) 0 ∧
       rW₂.events = Event.evalStep 0
         :: ((([10, 10] : List Nat)).zip tds₂).map (fun p => Event.trainStep p.2 p.1)
         ++ [Event.evalStep rW₂.model]) ∧
      rW₂.events.countP Event.isEvalStep = 2) :=
  C9_phase_runner_contract
    (show run_ccl_train idPerm natTrain 0 dsTwo 2 cclTwoGroups false = .ok rW
      by decide)
    (show run_cl_with_synthesised_data idPerm natTrain 0 oW sW 20 false = .ok rW₂
      by decide)

/- ### Claim C10 -/

/-- Claim C10: the phase loop overwrites the shared
`training_args.num_train_epochs` each iteration, so after a successful
run the field holds the last phase's epoch count, not the declared
total.  For `run_ccl_train` the final value is the last zipped phase's
epoch count; for `run_cl_with_synthesised_data` it is always 10 while
the declared total the caller had to pass is 20 — the configuration
object is not left unchanged. -/
theorem C10_num_train_epochs_overwritten {μ ν : Type u} {g g₂ : Nat → Nat → List Nat}
    {tf : μ → List Example → Nat → μ} {tf₂ : ν → List Example → Nat → ν}
    {m : μ} {m₂ : ν} {ds o s : List Example} {ne ne₂ : ℚ} {ccl : CCLArguments}
    {um um₂ : Bool} {r : RunResult μ} {r₂ : RunResult ν}
    (hc : run_ccl_train g tf m ds ne ccl um = .ok r)
    (hs : run_cl_with_synthesised_data g₂ tf₂ m₂ o s ne₂ um₂ = .ok r₂) :
    (∃ tds, cclDatasets g ds ccl um = .ok tds ∧
       r.numTrainEpochs
         = ((ccl.n_epochs.zip tds).getLast?).elim ne (fun p => ((p.1 : ℕ) : ℚ))) ∧
    r₂.numTrainEpochs = 10 ∧ ne₂ = 20 ∧ r₂.numTrainEpochs ≠ ne₂ := by
  obtain ⟨-, tds, htds, hrp⟩ := run_ccl_train_ok hc
  obtain ⟨-, -, hnum, -⟩ := runPhases_ok hrp
  obtain ⟨h20, tds₂, htds₂, hrp₂⟩ := run_cl_ok hs
  obtain ⟨-, -, hnum₂, -⟩ := runPhases_ok hrp₂
  have hlen2 : tds₂.length = 2 := by
    by_cases hu : um₂ = true
    · rw [if_pos hu] at htds₂
      exact uniform_mixing_tts_ok_length htds₂
    · rw [if_neg hu] at htds₂
      have heq := (Except.ok.inj htds₂).symm
      subst heq
      rfl
  obtain ⟨t0, t1, rfl⟩ := List.length_eq_two.mp hlen2
  have hzip : (([10, 10] : List Nat).zip [t0, t1]) = [(10, t0), (10, t1)] := rfl
  rw [hzip] at hnum₂
  simp only [List.getLast?_cons_cons, List.getLast?_singleton, Option.elim_some]
    at hnum₂
  have h10 : r₂.numTrainEpochs = (10 : ℚ) := by
    rw [hnum₂]
    norm_num
  have h20' : ne₂ = (20 : ℚ) := by
    rw [h20]
    norm_num
  exact ⟨⟨tds, htds, hnum⟩, h10, h20', by rw [h10, h20']; norm_num⟩

/-- Claim C10, witness: after the concrete two-phase runs the field
holds 1 (the last phase's epoch count, not the declared total 2) and 10
(not the declared total 20). -/
theorem C10_witness :
    (∃ tds, cclDatasets idPerm dsTwo cclTwoGroups false = .ok tds ∧
       rW.numTrainEpochs
         = ((cclTwoGroups.n_epochs.zip tds).getLast?).elim 2
             (fun p => ((p.1 : ℕ) : ℚ))) ∧
    rW₂.numTrainEpochs = 10 ∧ (20 : ℚ) = 20 ∧ rW₂.numTrainEpochs ≠ (20 : ℚ) :=
  C10_num_train_epochs_overwritten
    (show run_ccl_train idPerm natTrain 0 dsTwo 2 cclTwoGroups false = .ok rW
      by decide)
    (show run_cl_with_synthesised_data idPerm natTrain 0 oW sW 20 false = .ok rW₂
      by decide)

/- ### Claim C7 -/

/-- Claim C7, counterexample: pairwise mixing of 3 original and 3
synthesised examples at `swap_proportion = 1/5` moves exactly one
synthesised example (and one original) across: the phase-0 set contains
1 synthesised example, not "exactly the swap_proportion fraction"
`1/5 · 3 = 0.6` of them — the donated count is the ceiling of the
fraction, not the fraction itself. -/
theorem C7_counterexample :
    (uniform_mixing_tts idPerm [o3c, s3c] (1/5)).map
      (fun rs => rs.map (fun l => (l.countP (fun x => decide (x ∈ s3c)), l.length)))
      = .ok [(1, 3), (3, 6)] ∧
    ¬ ((1 : ℚ) = (1/5) * ((3 : ℕ) : ℚ)) := by
  constructor
  · have h := tts_counts (p := 1/5) idPerm_good (by norm_num) (by norm_num)
      (show ∀ a ∈ o3c, a ∉ s3c by decide)
    have htc : testCount (1/5) 3 = 1 := by
      have h1 : (⌈(1/5 : ℚ) * ((3 : ℕ) : ℚ)⌉) = 1 := by
        rw [Int.ceil_eq_iff]
        norm_num
      simp only [testCount, h1]
      rfl
    have ho : o3c.length = 3 := rfl
    have hs : s3c.length = 3 := rfl
    rw [ho, hs, htc] at h
    simpa using h
  · norm_num

/-- Claim C7 (amended): each side donates `⌈swap_proportion · n⌉`
examples (the fraction rounded up to a whole example, which is exactly
the fraction whenever `p·n` is integral): the phase-0 set of
`uniform_mixing_tts` consists of `|o| - ⌈p·|o|⌉` original plus
`⌈p·|s|⌉` synthesised examples, and the phase-1 set is the union of
both sides, all `|o| + |s|` examples.  At 200 + 200 and `p = 1/5` this
gives exactly 160 + 40 = 200 and 400 (the claim's concrete scenario,
instantiated in the witness). -/
theorem C7_pairwise_mixing_counts {g : Nat → Nat → List Nat} (hg : GoodGen g)
    {o s : List Example} {p : ℚ} (hp0 : 0 < p) (hp1 : p < 1)
    (hdisj : ∀ a ∈ o, a ∉ s) :
    (uniform_mixing_tts g [o, s] p).map
      (fun rs => rs.map (fun l => (l.countP (fun x => decide (x ∈ s)), l.length)))
      = .ok [(testCount p s.length,
              (o.length - testCount p o.length) + testCount p s.length),
             (s.length, o.length + s.length)] :=
  tts_counts hg hp0 hp1 hdisj

/-- Claim C7, witness: 200 original and 200 synthesised examples at
`swap_proportion = 1/5`: the phase-0 set has 200 examples of which
exactly 40 are synthesised (so 160 original), and the phase-1 set has
all 400, 200 of them synthesised. -/
theorem C7_witness :
    (uniform_mixing_tts idPerm [o200, s200] (1/5)).map
      (fun rs => rs.map (fun l => (l.countP (fun x => decide (x ∈ s200)), l.length)))
      = .ok [(40, 200), (200, 400)] := by
  have hdisj : ∀ a ∈ o200, a ∉ s200 := by
    intro a ha hb
    simp only [o200, s200, List.mem_map, List.mem_range] at ha hb
    obtain ⟨i, hi, rfl⟩ := ha
    obtain ⟨j, hj, hees⟩ := hb
    rw [Example.mk.injEq] at hees
    exact absurd hees.2 (by norm_num)
  have h := C7_pairwise_mixing_counts (p := 1/5) idPerm_good (by norm_num)
    (by norm_num) hdisj
  have hol : o200.length = 200 := by simp [o200]
  have hsl : s200.length = 200 := by simp [s200]
  have htc : testCount (1/5) 200 = 40 := by
    have h1 : (⌈(1/5 : ℚ) * ((200 : ℕ) : ℚ)⌉) = 40 := by
      rw [Int.ceil_eq_iff]
      norm_num
    simp only [testCount, h1]
    rfl
  rw [hol, hsl, htc] at h
  simpa using h

end Wav2Vec2Finetune
